import Mathlib

/-!
Verification of the airprint-bridge core: a shallow embedding of the IPP
proxy server (`internal/ipp`), the AirPrint capability translator
(`internal/airprint`), the CUPS capability helpers (`internal/cups`) and the
Avahi service-file reconciler (`internal/avahi`), with theorems settling the
specification's claims about them.

Bytes are modelled as `Nat` values (< 256 where it matters); Go byte slices
become `List Nat`; Go strings become Lean `String` with an explicit UTF-8
byte encoding where the wire format needs byte counts.
-/

/-! ## Byte-level helpers -/

/-- Big-endian 2-byte encoding of a 16-bit quantity, as Go's
`binary.Write(buf, binary.BigEndian, uint16(n))` produces (truncating mod 2^16). -/
def u16bytes (n : Nat) : List Nat := [n / 256 % 256, n % 256]

/-- Big-endian 4-byte encoding of a 32-bit quantity. -/
def u32bytes (n : Nat) : List Nat :=
  [n / 16777216 % 256, n / 65536 % 256, n / 256 % 256, n % 256]

/-- UTF-8 encoding of a single character, byte values as `Nat`. -/
def charUTF8 (c : Char) : List Nat :=
  let n := c.toNat
  if n < 128 then [n]
  else if n < 2048 then [192 + n / 64, 128 + n % 64]
  else if n < 65536 then [224 + n / 4096, 128 + n / 64 % 64, 128 + n % 64]
  else [240 + n / 262144, 128 + n / 4096 % 64, 128 + n / 64 % 64, 128 + n % 64]

/-- The UTF-8 bytes of a string; `(strBytes s).length` is Go's `len(s)`. -/
def strBytes (s : String) : List Nat := (s.data.map charUTF8).flatten

/-- Whether `pat` occurs at the head of `s` (generic contiguous-prefix test). -/
def seqStarts {α : Type} [DecidableEq α] : List α → List α → Bool
  | [], _ => true
  | _ :: _, [] => false
  | a :: as, b :: bs => if a = b then seqStarts as bs else false

/-- Whether `pat` occurs contiguously anywhere inside `s`
(the model of Go's `strings.Contains` / `bytes.Contains`). -/
def seqContains {α : Type} [DecidableEq α] (pat : List α) : List α → Bool
  | [] => seqStarts pat []
  | c :: rest => if seqStarts pat (c :: rest) then true else seqContains pat rest

/-- Go `strings.Contains(s, pat)` on our string model. -/
def strContains (s pat : String) : Bool := seqContains pat.data s.data

/-! ## Capability translator: URF capabilities (internal/airprint/urf.go) -/

/-- `URFCapabilities` struct from the source. -/
structure URFCapabilities where
  ColorModes : List String
  Duplex : List String
  Quality : List String
  Resolutions : List Int
deriving DecidableEq

/-- `NewURFCapabilities` from the source: grayscale/simplex/max-quality always,
color and duplex tokens appended when supported, empty resolution list
replaced by `[300]`. -/
def NewURFCapabilities (colorSupported duplexSupported : Bool)
    (resolutions : List Int) : URFCapabilities :=
  { ColorModes := ["W8"] ++ (if colorSupported then ["SRGB24"] else [])
    Duplex := ["DM1"] ++ (if duplexSupported then ["DM3", "DM4"] else [])
    Quality := ["CP255"]
    Resolutions := if resolutions.length = 0 then [300] else resolutions }

/-- The ascending sort performed by Go's `sort.Ints`. -/
def sortInts (l : List Int) : List Int := List.insertionSort (· ≤ ·) l

/-- The adjacent-duplicate removal loop of `resolutionString`
(`if sorted[i] != sorted[i-1] { unique = append(unique, sorted[i]) }`):
each element is compared with the previous element of the sorted slice. -/
def dedupAux (prev : Int) : List Int → List Int
  | [] => []
  | y :: ys => if y ≠ prev then y :: dedupAux y ys else dedupAux y ys

/-- `unique := []int{sorted[0]}` followed by the dedup loop. -/
def dedupAdjacent : List Int → List Int
  | [] => []
  | x :: xs => x :: dedupAux x xs

/-- `resolutionString` from the source: "RS300" fallback for an empty list,
otherwise sort ascending, deduplicate, then `RS<v>` for a single value or
`RS<min>-<max>` otherwise. -/
def resolutionString (resolutions : List Int) : String :=
  if resolutions.length = 0 then "RS300"
  else
    let sorted := sortInts resolutions
    let unique := dedupAdjacent sorted
    if unique.length = 1 then "RS" ++ toString (unique.headD 0)
    else "RS" ++ toString (unique.headD 0) ++ "-" ++ toString (unique.getLastD 0)

/-- The token list assembled by the source's `URFCapabilities.String` method,
in its append order: color modes, quality, resolution token, duplex modes. -/
def urfParts (u : URFCapabilities) : List String :=
  u.ColorModes ++ u.Quality ++ [resolutionString u.Resolutions] ++ u.Duplex

/-- `URFCapabilities.String`: the parts joined with commas. -/
def urfString (u : URFCapabilities) : String :=
  String.intercalate "," (urfParts u)

/-! ## CUPS printer model and capability helpers (internal/cups) -/

/-- The `cups.Printer` struct: a printer descriptor snapshot.
`State` is the CUPS printer-state integer (3 idle / 4 processing / 5 stopped). -/
structure Printer where
  Name : String
  URI : String
  MakeModel : String
  Location : String
  Info : String
  State : Int
  IsShared : Bool
  IsAccepting : Bool
  ColorSupported : Bool
  DuplexSupported : Bool
  Resolutions : List Int
  MediaSupported : List String
  MediaReady : List String
deriving DecidableEq

/-- The pattern table of `NormalizePaperSize`. The Go source stores these in a
map and iterates it in unspecified order; the fixed order used here is exact
for every input that contains at most one of the patterns. -/
def paperMappings : List (String × String) :=
  [("a4", "A4"), ("a3", "A3"), ("a5", "A5"), ("letter", "Letter"),
   ("legal", "Legal"), ("tabloid", "Tabloid"), ("executive", "Executive"),
   ("b5", "B5"), ("4x6", "4x6"), ("5x7", "5x7")]

/-- The `strings.Contains` scan of `NormalizePaperSize` over the pattern table. -/
def npsMatch (m : String) : List (String × String) → String
  | [] => m
  | (pat, name) :: rest => if strContains m pat then name else npsMatch m rest

/-- Go `strings.ToLower`, character by character. -/
def strToLower (s : String) : String := String.mk (s.data.map Char.toLower)

/-- `cups.NormalizePaperSize`: lower-case the media name, return the mapped
short form of the first contained pattern, else the input unchanged. -/
def NormalizePaperSize (media : String) : String :=
  npsMatch (strToLower media) paperMappings

/-! ## TXT-record translator (internal/airprint/txtrecords.go) -/

/-- The `seen`-map dedup loop of `normalizePaperSizes`. -/
def npsLoop (seen : List String) : List String → List String
  | [] => []
  | m :: rest =>
    let normalized := NormalizePaperSize m
    if seen.contains normalized then npsLoop seen rest
    else normalized :: npsLoop (normalized :: seen) rest

/-- `normalizePaperSizes`: normalize every media name, keeping the first
occurrence of each normalized form. -/
def normalizePaperSizes (media : List String) : List String := npsLoop [] media

/-- `sanitizeProduct`: strip parentheses, truncate at 128 bytes (modeled as
128 characters, exact for ASCII model strings), defaulting for empty input. -/
def sanitizeProduct (model : String) : String :=
  if model = "" then "Unknown Printer"
  else
    let m := String.mk (model.data.filter (fun c => ¬ (c = '(' ∨ c = ')')))
    if (strBytes m).length > 128 then String.mk (m.data.take 128) else m

/-- `TXTRecords.Set` on the record collection: Go map assignment, modeled on
an association list (replace the key's binding, else append). -/
def txtSet (l : List (String × String)) (k v : String) : List (String × String) :=
  match l with
  | [] => [(k, v)]
  | (k', v') :: rest => if k' = k then (k, v) :: rest else (k', v') :: txtSet rest k v

/-- `TXTRecords.Get`: Go map lookup on the association list. -/
def txtGet (l : List (String × String)) (k : String) : Option String :=
  match l with
  | [] => none
  | (k', v') :: rest => if k' = k then some v' else txtGet rest k

/-- `NewTXTRecords`: builds the DNS-SD TXT record set for a printer, one
`Set` call per record in source order, including the conditional `ty`,
`note` and `media` records. -/
def NewTXTRecords (p : Printer) : List (String × String) :=
  let t := txtSet [] "txtvers" "1"
  let t := txtSet t "qtotal" "1"
  let t := txtSet t "rp" ("printers/" ++ p.Name)
  let t := if p.MakeModel ≠ "" then txtSet t "ty" p.MakeModel
           else txtSet t "ty" p.Name
  let t := if p.Location ≠ "" then txtSet t "note" p.Location
           else if p.Info ≠ "" then txtSet t "note" p.Info
           else t
  let t := txtSet t "pdl" "image/urf,application/pdf,image/jpeg,image/png"
  let t := txtSet t "URF"
    (urfString (NewURFCapabilities p.ColorSupported p.DuplexSupported p.Resolutions))
  let t := if p.ColorSupported then txtSet t "Color" "T" else txtSet t "Color" "F"
  let t := if p.DuplexSupported then txtSet t "Duplex" "T" else txtSet t "Duplex" "F"
  let t := if p.MediaSupported.length > 0 then
             (let sizes := normalizePaperSizes p.MediaSupported
              if sizes.length > 0 then
                txtSet t "media" (String.intercalate "," sizes)
              else t)
           else t
  let t := txtSet t "printer-state" (toString p.State)
  let t := txtSet t "product" ("(" ++ sanitizeProduct p.MakeModel ++ ")")
  let t := txtSet t "priority" "50"
  let t := txtSet t "Transparent" "F"
  let t := txtSet t "Binary" "F"
  let t := txtSet t "TBCP" "F"
  t

/-! ## Avahi service files (internal/avahi/servicefile.go) -/

/-- ASCII whitespace test used to model Go's `strings.TrimSpace`
(exact for the ASCII strings this system handles). -/
def isSpaceChar (c : Char) : Bool := c = ' ' ∨ c = '\t' ∨ c = '\n' ∨ c = '\r'

/-- Go `strings.TrimSpace` on the character-list model. -/
def trimSpaces (s : String) : String :=
  String.mk (((s.data.dropWhile isSpaceChar).reverse.dropWhile isSpaceChar).reverse)

/-- `sanitizeName`: underscores become spaces, XML-problematic characters
become spaces, and the result is trimmed. -/
def sanitizeName (name : String) : String :=
  let replaced := name.data.map (fun c => if c = '_' then ' ' else c)
  let cleaned := replaced.map (fun c =>
    if c = '<' ∨ c = '>' ∨ c = '&' ∨ c = '"' ∨ c = '\'' then ' ' else c)
  trimSpaces (String.mk cleaned)

/-- The per-character filesystem sanitization of `ServiceFileName`: characters
outside `[A-Za-z0-9_-]` map to `_`. -/
def fsSafeChar (c : Char) : Char :=
  if ('a' ≤ c ∧ c ≤ 'z') ∨ ('A' ≤ c ∧ c ≤ 'Z') ∨ ('0' ≤ c ∧ c ≤ '9')
      ∨ c = '-' ∨ c = '_'
  then c else '_'

/-- `ServiceFileName`: `<prefix><sanitized-name>.service`. -/
def ServiceFileName (pfx printerName : String) : String :=
  pfx ++ String.mk (printerName.data.map fsSafeChar) ++ ".service"

/-- The character-data escaping performed by Go's `encoding/xml` marshaller. -/
def xmlEscapeChar (c : Char) : String :=
  if c = '"' then "&#34;"
  else if c = '\'' then "&#39;"
  else if c = '&' then "&amp;"
  else if c = '<' then "&lt;"
  else if c = '>' then "&gt;"
  else if c = '\t' then "&#x9;"
  else if c = '\n' then "&#xA;"
  else if c = '\r' then "&#xD;"
  else String.mk [c]

/-- XML chardata escaping over a whole string. -/
def xmlEscape (s : String) : String := String.join (s.data.map xmlEscapeChar)

/-- Byte-lexicographic ordering on byte lists, as Go compares strings. -/
def lexLeBytes : List Nat → List Nat → Bool
  | [], _ => true
  | _ :: _, [] => false
  | a :: as, b :: bs =>
    if a < b then true else if b < a then false else lexLeBytes as bs

/-- Go string `<=` (byte-lexicographic on the UTF-8 bytes). -/
def strLeB (a b : String) : Bool := lexLeBytes (strBytes a) (strBytes b)

/-- Insertion step of the ascending string sort. -/
def insertSortedStr (x : String) : List String → List String
  | [] => [x]
  | y :: ys => if strLeB x y then x :: y :: ys else y :: insertSortedStr x ys

/-- The ascending sort performed by Go's `sort.Strings`. -/
def sortStrings : List String → List String
  | [] => []
  | x :: xs => insertSortedStr x (sortStrings xs)

/-- `GenerateServiceFile`: the Avahi service XML for one printer. The fixed
template below is the output of Go's `xml.MarshalIndent` on the
`ServiceGroup{Name, Service{Type, SubTypes, Port, TXTRecord}}` structure with
two-space indentation, prefixed by the XML declaration and DOCTYPE header and
followed by a newline, with TXT records sorted by key for deterministic
output. Marshalling this fixed structure cannot fail, so the Go error return
is always nil and is omitted. -/
def GenerateServiceFile (printerName : String) (port : Int)
    (txtRecords : List (String × String)) : String :=
  let keys := sortStrings (txtRecords.map (fun kv => kv.1))
  let recLines := keys.map (fun k =>
    "    <txt-record>" ++ xmlEscape (k ++ "=" ++ ((txtGet txtRecords k).getD ""))
      ++ "</txt-record>\n")
  "<?xml version=\"1.0\" standalone=\"no\"?>\n" ++
  "<!DOCTYPE service-group SYSTEM \"avahi-service.dtd\">\n" ++
  "<service-group>\n" ++
  "  <name>" ++ xmlEscape (sanitizeName printerName ++ " @ %h") ++ "</name>\n" ++
  "  <service>\n" ++
  "    <type>_ipp._tcp</type>\n" ++
  "    <subtype>_universal._sub._ipp._tcp</subtype>\n" ++
  "    <port>" ++ toString port ++ "</port>\n" ++
  String.join recLines ++
  "  </service>\n" ++
  "</service-group>" ++ "\n"

/-! ## Avahi service-file reconciler (internal/avahi/manager.go)

The filesystem (one flat service directory) is modeled as an association
list from filename to file content; write/remove failures are injected by an
oracle so that the error-handling paths of the manager are part of the model.
Go map iteration order (for the managed-file set) does not affect the
results modeled here, since per-file removals of distinct files commute. -/

/-- Failure oracle for filesystem operations. -/
structure FSOracle where
  writeFails : String → Bool
  removeFails : String → Bool

/-- The oracle of a healthy filesystem: no operation fails. -/
def noFailOracle : FSOracle :=
  { writeFails := fun _ => false, removeFails := fun _ => false }

/-- Manager state: the tracked managed-file set and the service directory. -/
structure ManagerState where
  managedFiles : List String
  fs : List (String × String)
deriving DecidableEq

/-- Adding a filename to the managed set (`m.managedFiles[filename] = true`). -/
def addIfAbsent (l : List String) (x : String) : List String :=
  if l.contains x then l else l ++ [x]

/-- Removing a file from the modeled directory (`os.Remove`). -/
def txtRemove : List (String × String) → String → List (String × String)
  | [], _ => []
  | (k, v) :: rest, key =>
    if k = key then txtRemove rest key else (k, v) :: txtRemove rest key

/-- The eligibility filter of `UpdatePrinters`: not excluded
(case-insensitively), shared if `sharedOnly`, and accepting jobs. -/
def eligible (sharedOnly : Bool) (excludeList : List String) (p : Printer) : Bool :=
  !((excludeList.map strToLower).contains (strToLower p.Name))
    && (!sharedOnly || p.IsShared) && p.IsAccepting

/-- Result of `createOrUpdateService`: new state, whether a write happened,
whether it failed. -/
structure ServiceUpdate where
  state : ManagerState
  wrote : Bool
  failed : Bool

/-- `createOrUpdateService`: generate the target content, skip if the
existing file already matches byte-for-byte, otherwise write atomically and
record the file in the managed set (only on successful writes, as in the
source). -/
def createOrUpdateService (pfx : String) (port : Int) (oracle : FSOracle)
    (st : ManagerState) (p : Printer) : ServiceUpdate :=
  let content := GenerateServiceFile p.Name port (NewTXTRecords p)
  let filename := ServiceFileName pfx p.Name
  match txtGet st.fs filename with
  | some existing =>
    if existing = content then { state := st, wrote := false, failed := false }
    else if oracle.writeFails filename then
      { state := st, wrote := false, failed := true }
    else
      { state := { managedFiles := addIfAbsent st.managedFiles filename
                   fs := txtSet st.fs filename content }
        wrote := true, failed := false }
  | none =>
    if oracle.writeFails filename then
      { state := st, wrote := false, failed := true }
    else
      { state := { managedFiles := addIfAbsent st.managedFiles filename
                   fs := txtSet st.fs filename content }
        wrote := true, failed := false }

/-- The per-printer loop of `UpdatePrinters`: returns the resulting state,
the `currentPrinters` filename list of this pass, and the number of
filesystem writes performed. Per-printer failures are logged and skipped. -/
def processPrinters (pfx : String) (port : Int) (sharedOnly : Bool)
    (excludeList : List String) (oracle : FSOracle) :
    List Printer → ManagerState → ManagerState × List String × Nat
  | [], st => (st, [], 0)
  | p :: ps, st =>
    if eligible sharedOnly excludeList p then
      let r := createOrUpdateService pfx port oracle st p
      let rest := processPrinters pfx port sharedOnly excludeList oracle ps r.state
      (rest.1, ServiceFileName pfx p.Name :: rest.2.1,
        (if r.wrote then 1 else 0) + rest.2.2)
    else processPrinters pfx port sharedOnly excludeList oracle ps st

/-- The orphan-removal loop of `UpdatePrinters`: every managed file not in
this pass's `currentPrinters` set is removed (removal failures are logged;
the entry is dropped from the managed set regardless, as in the source).
Returns the new managed set, the new directory contents, and the number of
removals attempted. -/
def removeOrphans (oracle : FSOracle) (current : List String) :
    List String → List (String × String) →
      List String × List (String × String) × Nat
  | [], fs => ([], fs, 0)
  | f :: ms, fs =>
    if current.contains f then
      let r := removeOrphans oracle current ms fs
      (f :: r.1, r.2.1, r.2.2)
    else
      let fs' := if oracle.removeFails f then fs else txtRemove fs f
      let r := removeOrphans oracle current ms fs'
      (r.1, r.2.1, r.2.2 + 1)

/-- Result of one `UpdatePrinters` reconciliation pass. -/
structure UpdateResult where
  state : ManagerState
  writes : Nat
  deletions : Nat
  error : Option String

/-- `UpdatePrinters`: one reconciliation pass — filter and process every
printer, then remove orphaned service files. The source function ends in an
unconditional `return nil`; every per-printer failure is only logged. -/
def UpdatePrinters (pfx : String) (port : Int) (oracle : FSOracle)
    (printers : List Printer) (sharedOnly : Bool) (excludeList : List String)
    (st : ManagerState) : UpdateResult :=
  let r := processPrinters pfx port sharedOnly excludeList oracle printers st
  let o := removeOrphans oracle r.2.1 r.1.managedFiles r.1.fs
  { state := { managedFiles := o.1, fs := o.2.1 }
    writes := r.2.2, deletions := o.2.2, error := none }

/-- The filenames of this pass's eligible printers, in order
(the `currentPrinters` set of `UpdatePrinters`). -/
def eligibleFileNames (pfx : String) (sharedOnly : Bool)
    (excludeList : List String) (printers : List Printer) : List String :=
  (printers.filter (eligible sharedOnly excludeList)).map
    (fun p => ServiceFileName pfx p.Name)

/-- A shared, accepting printer whose name `pr.x` sanitizes to `pr_x`. -/
def printerColA : Printer :=
  { Name := "pr.x", URI := "", MakeModel := "", Location := "", Info := "",
    State := 3, IsShared := true, IsAccepting := true, ColorSupported := false,
    DuplexSupported := false, Resolutions := [], MediaSupported := [],
    MediaReady := [] }

/-- A distinct printer whose name `pr_x` collides with `printerColA`'s
service filename after sanitization. -/
def printerColB : Printer :=
  { printerColA with Name := "pr_x" }

/-- The empty manager state (fresh start, empty service directory). -/
def emptyState : ManagerState := { managedFiles := [], fs := [] }

/-- The printer fixture used by the repository's own `TestNewTXTRecords`. -/
def printerEx : Printer :=
  { Name := "TestPrinter", URI := "", MakeModel := "Test Printer Model",
    Location := "Office", Info := "", State := 3, IsShared := true,
    IsAccepting := true, ColorSupported := true, DuplexSupported := true,
    Resolutions := [300, 600],
    MediaSupported := ["iso_a4_210x297mm", "na_letter_8.5x11in"],
    MediaReady := [] }

/-! ## IPP proxy server (internal/ipp/server.go)

Attribute tag bytes follow the source constants: 0x01 operation-attrs,
0x02 job-attrs, 0x03 end, 0x04 printer-attrs, 0x05 unsupported-attrs,
0x21 integer, 0x22 boolean, 0x23 enum, 0x41 text, 0x42 name, 0x44 keyword,
0x45 URI, 0x47 charset, 0x48 natural-language, 0x49 mime-media-type.
Operation codes: Print-Job 0x0002, Validate-Job 0x0004, Cancel-Job 0x0008,
Get-Job-Attributes 0x0009, Get-Jobs 0x000a, Get-Printer-Attributes 0x000b. -/

/-- The typed attribute value accepted by `writeAttribute`
(`string`, `int32` or `bool` in the source's type switch). -/
inductive AttrVal where
  | str (s : String)
  | int32 (n : Int)
  | bool (b : Bool)

/-- `writeAttribute`: tag byte, 2-byte name length, name bytes, then the
value encoded by type: length-prefixed UTF-8 text, 4-byte big-endian signed
integer, or a single 0/1 byte. -/
def writeAttribute (tag : Nat) (name : String) (v : AttrVal) : List Nat :=
  [tag] ++ u16bytes (strBytes name).length ++ strBytes name ++
  (match v with
   | .str s => u16bytes (strBytes s).length ++ strBytes s
   | .int32 n => u16bytes 4 ++ u32bytes (n % 4294967296).toNat
   | .bool b => u16bytes 1 ++ [if b then 1 else 0])

/-- `writeAttributeMulti`: each value is written with the same tag and an
empty name (the additional-value continuation encoding); the name argument
of the source function is ignored. -/
def writeAttributeMulti (tag : Nat) (values : List String) : List Nat :=
  (values.map (fun v =>
    [tag] ++ u16bytes 0 ++ u16bytes (strBytes v).length ++ strBytes v)).flatten

/-- `writeOperationsSupported`: the first operation code carries the
attribute name, the remaining five are written as unnamed additional enum
values, in source order. -/
def writeOperationsSupported : List Nat :=
  writeAttribute 0x23 "operations-supported" (.int32 2) ++
  (([4, 9, 10, 11, 8] : List Int).map (fun op =>
    [0x23] ++ u16bytes 0 ++ u16bytes 4 ++ u32bytes (op % 4294967296).toNat)).flatten

/-- `ipp.PrinterConfig`: printer information handed to `NewServer`. -/
structure PrinterConfig where
  Name : String
  MakeModel : String
  Location : String
  Color : Bool
  Duplex : Bool
  Resolutions : List Int

/-- The `ipp.Server` fields used by the request handlers (the CUPS client
and logger are modeled separately / omitted). -/
structure Server where
  printerName : String
  printerURI : String

/-- Go `strings.Split` for a one-character separator. -/
def splitCharAux (c : Char) (acc : List Char) : List Char → List String
  | [] => [String.mk acc.reverse]
  | x :: xs =>
    if x = c then String.mk acc.reverse :: splitCharAux c [] xs
    else splitCharAux c (x :: acc) xs

/-- Go `strings.Split(s, c)` for a one-character separator. -/
def splitOnChar (c : Char) (s : String) : List String := splitCharAux c [] s.data

/-- `NewServer`: stores only the printer name and the derived printer URI
(`ipp://cups.local:<port>/printers/<name>`); every other `PrinterConfig`
field is discarded by the source constructor. The source indexes
`strings.Split(listenAddr, ":")[1]` directly (panicking without a colon);
the model defaults to the empty string there. -/
def NewServer (listenAddr : String) (printer : PrinterConfig) : Server :=
  { printerName := printer.Name
    printerURI := "ipp://cups.local:" ++ ((splitOnChar ':' listenAddr).getD 1 "")
      ++ "/printers/" ++ printer.Name }

/-- The 8-byte response header every handler writes first: version 2.0
(0x0200), a 16-bit status, and the echoed 32-bit request id. -/
def respHeader (status requestID : Nat) : List Nat :=
  u16bytes 0x0200 ++ u16bytes status ++ u32bytes requestID

/-- The operation-attributes group opening every response:
group tag 0x01, `attributes-charset`, `attributes-natural-language`. -/
def opAttrsGroup : List Nat :=
  [0x01] ++ writeAttribute 0x47 "attributes-charset" (.str "utf-8") ++
  writeAttribute 0x48 "attributes-natural-language" (.str "en-us")

/-- `buildErrorResponse`: header with the error status, the operation
attributes, and the end tag. -/
def buildErrorResponse (requestID : Nat) (status : Nat) : List Nat :=
  respHeader status requestID ++ opAttrsGroup ++ [0x03]

/-- The scan loop of `findDocumentStart` (`for i := 8; i < len(body); i++`),
expressed structurally over the byte list starting at index `i`. -/
def findDocLoop (i : Nat) : List Nat → Int
  | [] => -1
  | b :: rest => if b = 0x03 then (i : Int) + 1 else findDocLoop (i + 1) rest

/-- `findDocumentStart`: position immediately after the first end-tag byte
at index ≥ 8, or -1 when none occurs. -/
def findDocumentStart (body : List Nat) : Int := findDocLoop 8 (body.drop 8)

/-- `handleGetPrinterAttributes`: the fixed Get-Printer-Attributes response.
Note the hard-coded make/model, location, color flag, media list and URF
values; only `printer-name` and `printer-uri-supported` come from the
server's configuration. The `printerName` request argument is only logged. -/
def handleGetPrinterAttributes (s : Server) (requestID : Nat) : List Nat :=
  respHeader 0x0000 requestID ++
  opAttrsGroup ++
  [0x04] ++
  writeAttribute 0x45 "printer-uri-supported" (.str s.printerURI) ++
  writeAttribute 0x44 "uri-security-supported" (.str "none") ++
  writeAttribute 0x44 "uri-authentication-supported" (.str "none") ++
  writeAttribute 0x42 "printer-name" (.str s.printerName) ++
  writeAttribute 0x23 "printer-state" (.int32 3) ++
  writeAttribute 0x44 "printer-state-reasons" (.str "none") ++
  writeAttribute 0x44 "ipp-versions-supported" (.str "2.0") ++
  writeAttribute 0x44 "operations-supported" (.str "") ++
  writeOperationsSupported ++
  writeAttribute 0x49 "document-format-supported" (.str "image/urf") ++
  writeAttributeMulti 0x49 ["application/pdf", "image/jpeg", "image/png"] ++
  writeAttribute 0x49 "document-format-default" (.str "image/urf") ++
  writeAttribute 0x22 "printer-is-accepting-jobs" (.bool true) ++
  writeAttribute 0x21 "queued-job-count" (.int32 0) ++
  writeAttribute 0x44 "pdl-override-supported" (.str "attempted") ++
  writeAttribute 0x42 "printer-make-and-model" (.str "Zebra ZPL Label Printer") ++
  writeAttribute 0x41 "printer-location" (.str "Local") ++
  writeAttribute 0x22 "color-supported" (.bool false) ++
  writeAttribute 0x44 "media-default" (.str "oe_4x6-label_4x6in") ++
  writeAttributeMulti 0x44
    ["oe_4x6-label_4x6in", "oe_4x3-label_4x3in", "oe_4x4-label_4x4in",
     "oe_3x2-label_3x2in", "oe_2x1-label_2x1in"] ++
  writeAttribute 0x44 "sides-supported" (.str "one-sided") ++
  writeAttribute 0x44 "sides-default" (.str "one-sided") ++
  writeAttribute 0x44 "urf-supported" (.str "W8") ++
  writeAttributeMulti 0x44 ["CP255", "RS203", "DM1", "V1.4"] ++
  [0x03]

/-- `handlePrintJob`: locate the document, forward to the CUPS client
(modeled by its outcome: a job id or a failure), and answer with the job
attributes on success, or with the matching error response. -/
def handlePrintJob (s : Server) (cupsResult : Except Unit Int)
    (requestID : Nat) (body : List Nat) : List Nat :=
  if findDocumentStart body < 0 then
    buildErrorResponse requestID 0x0400
  else
    match cupsResult with
    | .error _ => buildErrorResponse requestID 0x0500
    | .ok jobID =>
      respHeader 0x0000 requestID ++
      opAttrsGroup ++
      [0x02] ++
      writeAttribute 0x21 "job-id" (.int32 jobID) ++
      writeAttribute 0x45 "job-uri"
        (.str (s.printerURI ++ "/jobs/" ++ toString jobID)) ++
      writeAttribute 0x23 "job-state" (.int32 3) ++
      [0x03]

/-- `handleValidateJob`: minimal success response. -/
def handleValidateJob (requestID : Nat) : List Nat :=
  respHeader 0x0000 requestID ++ opAttrsGroup ++ [0x03]

/-- `handleGetJobs`: minimal success response (no job enumeration). -/
def handleGetJobs (requestID : Nat) : List Nat :=
  respHeader 0x0000 requestID ++ opAttrsGroup ++ [0x03]

/-- `handleGetJobAttributes`: fixed synthetic completed-job response
(the request body is ignored by the source handler). -/
def handleGetJobAttributes (requestID : Nat) : List Nat :=
  respHeader 0x0000 requestID ++
  opAttrsGroup ++
  [0x02] ++
  writeAttribute 0x23 "job-state" (.int32 9) ++
  writeAttribute 0x44 "job-state-reasons" (.str "job-completed-successfully") ++
  [0x03]

/-- `handleCancelJob`: minimal success response (body ignored). -/
def handleCancelJob (requestID : Nat) : List Nat :=
  respHeader 0x0000 requestID ++ opAttrsGroup ++ [0x03]

/-- Outcome of one HTTP request to the IPP endpoint: either a plain HTTP
(transport-level) error via `http.Error`, or an IPP response body written
with status 200. -/
inductive HTTPResult where
  | transportError (httpStatus : Nat) (msg : String)
  | ipp (bytes : List Nat)
deriving DecidableEq

/-- The IPP bytes of a result, when it is an IPP response. -/
def ippBytes : HTTPResult → Option (List Nat)
  | .ipp bs => some bs
  | .transportError _ _ => none

/-- `handleIPP`: reject non-POST, reject bodies shorter than 8 bytes with a
plain HTTP 400, otherwise parse the header fields and dispatch on the
operation code, answering HTTP 200 with the handler's encoded response
(unsupported codes get `buildErrorResponse` with client-error-bad-request).
The body-read failure path (a transport error before any bytes exist) is
not modeled. -/
def handleIPP (s : Server) (cupsResult : Except Unit Int) (method : String)
    (body : List Nat) : HTTPResult :=
  if method ≠ "POST" then .transportError 405 "Method not allowed"
  else if body.length < 8 then .transportError 400 "Bad request"
  else
    let operation := body.getD 2 0 * 256 + body.getD 3 0
    let requestID :=
      ((body.getD 4 0 * 256 + body.getD 5 0) * 256 + body.getD 6 0) * 256
        + body.getD 7 0
    .ipp (if operation = 0x000b then handleGetPrinterAttributes s requestID
      else if operation = 0x0002 then handlePrintJob s cupsResult requestID body
      else if operation = 0x0004 then handleValidateJob requestID
      else if operation = 0x000a then handleGetJobs requestID
      else if operation = 0x0009 then handleGetJobAttributes requestID
      else if operation = 0x0008 then handleCancelJob requestID
      else buildErrorResponse requestID 0x0400)

/-- A server built from the repository test-fixture printer configuration. -/
def serverEx : Server :=
  NewServer ":8631"
    { Name := "TestPrinter", MakeModel := "Test Printer Model",
      Location := "Office", Color := true, Duplex := true,
      Resolutions := [300, 600] }

/-! ## Wire codec

The encoder below is the byte layout of `writeAttribute` /
`writeAttributeMulti` and the handlers' group-tag/end-marker structure,
with attribute names as raw byte strings (an empty name is the
additional-value continuation). The repository has no decoder: the server
reads only the fixed 8-byte header. The decoder is therefore modelled from
the spec (§4.1). -/

/-- An attribute value: UTF-8 text bytes, a signed 32-bit integer, or a
boolean — the tagged union of §3 / the `writeAttribute` type switch. -/
inductive IppValue where
  | text (s : List Nat)
  | int32 (n : Int)
  | bool (b : Bool)
deriving DecidableEq

/-- One attribute record: tag byte, name bytes (empty = additional value of
the preceding named attribute), value. -/
structure IppAttribute where
  tag : Nat
  name : List Nat
  value : IppValue
deriving DecidableEq

/-- One attribute group: group tag and its ordered attribute records. -/
structure IppGroup where
  tag : Nat
  attrs : List IppAttribute
deriving DecidableEq

/-- A protocol message: 2-byte version, 2-byte operation/status code,
4-byte request id, ordered attribute groups. -/
structure IppMessage where
  version : Nat
  code : Nat
  requestId : Nat
  groups : List IppGroup
deriving DecidableEq

/-- Delimiter tags: group tags and the end marker. -/
def isDelimiterTag (t : Nat) : Bool :=
  t == 1 || t == 2 || t == 3 || t == 4 || t == 5

/-- Group tags: operation / job / printer / unsupported attributes. -/
def isGroupTag (t : Nat) : Bool := t == 1 || t == 2 || t == 4 || t == 5

/-- Tags whose values decode as UTF-8 text (text, name, keyword, URI,
URI-scheme, charset, natural-language, mime-media-type). -/
def isTextTag (t : Nat) : Bool :=
  t == 0x41 || t == 0x42 || t == 0x44 || t == 0x45 || t == 0x46 || t == 0x47
    || t == 0x48 || t == 0x49

/-- Tags whose values decode as 4-byte big-endian signed integers
(integer and enum). -/
def isIntTag (t : Nat) : Bool := t == 0x21 || t == 0x23

/-- Value encoding as in `writeAttribute`: length-prefixed text bytes, a
4-byte big-endian two's-complement integer, or a single 0/1 byte. -/
def encodeValue : IppValue → List Nat
  | .text s => u16bytes s.length ++ s
  | .int32 n => u16bytes 4 ++ u32bytes (n % 4294967296).toNat
  | .bool b => u16bytes 1 ++ [if b then 1 else 0]

/-- Attribute record encoding as in `writeAttribute`: tag byte, 2-byte name
length, name bytes, encoded value. -/
def encodeAttribute (a : IppAttribute) : List Nat :=
  [a.tag] ++ u16bytes a.name.length ++ a.name ++ encodeValue a.value

/-- Group encoding: group tag byte followed by the attribute records. -/
def encodeGroup (g : IppGroup) : List Nat :=
  [g.tag] ++ (g.attrs.map encodeAttribute).flatten

/-- Message encoding: 8-byte header, groups, explicit end marker 0x03. -/
def encodeMessage (m : IppMessage) : List Nat :=
  u16bytes m.version ++ u16bytes m.code ++ u32bytes m.requestId ++
  (m.groups.map encodeGroup).flatten ++ [0x03]

/-- Modelled from the spec: reading a 2-byte big-endian length field. -/
def readU16 : List Nat → Option (Nat × List Nat)
  | b1 :: b0 :: rest => some (b1 * 256 + b0, rest)
  | _ => none

/-- Modelled from the spec: reading exactly `n` raw bytes. -/
def readBytes (n : Nat) (bs : List Nat) : Option (List Nat × List Nat) :=
  if n ≤ bs.length then some (bs.take n, bs.drop n) else none

/-- Modelled from the spec: two's-complement interpretation of a 32-bit
unsigned value. -/
def decodeInt32 (v : Nat) : Int :=
  if v < 2147483648 then (v : Int) else (v : Int) - 4294967296

/-- Modelled from the spec: value bytes interpreted according to tag class —
text tags as UTF-8 bytes, integer/enum tags as a 4-byte big-endian signed
integer, the boolean tag as a single 0/1 byte. -/
def parseValue (tag : Nat) (bs : List Nat) : Option (IppValue × List Nat) :=
  match readU16 bs with
  | none => none
  | some (len, rest) =>
    if isIntTag tag then
      match rest with
      | b3 :: b2 :: b1 :: b0 :: r =>
        if len = 4 then
          some (.int32 (decodeInt32 (((b3 * 256 + b2) * 256 + b1) * 256 + b0)), r)
        else none
      | _ => none
    else if tag == 0x22 then
      match rest with
      | b :: r =>
        if len = 1 then
          if b = 1 then some (.bool true, r)
          else if b = 0 then some (.bool false, r)
          else none
        else none
      | _ => none
    else if isTextTag tag then
      match readBytes len rest with
      | some (s, r) => some (.text s, r)
      | none => none
    else none

/-- Modelled from the spec: one attribute record after its tag byte —
2-byte name length, name bytes, 2-byte value length, value bytes. -/
def parseAttribute (tag : Nat) (bs : List Nat) : Option (IppAttribute × List Nat) :=
  match readU16 bs with
  | none => none
  | some (nameLen, rest) =>
    match readBytes nameLen rest with
    | none => none
    | some (name, rest2) =>
      match parseValue tag rest2 with
      | none => none
      | some (v, rest3) => some ({ tag := tag, name := name, value := v }, rest3)

/-- Modelled from the spec: attribute records of the current group, up to
the next delimiter tag (which is left in place). The fuel argument bounds
the number of records and is given as the byte length by the caller. -/
def parseAttrs : Nat → List Nat → Option (List IppAttribute × List Nat)
  | _, [] => none
  | 0, t :: rest => if isDelimiterTag t then some ([], t :: rest) else none
  | fuel + 1, t :: rest =>
    if isDelimiterTag t then some ([], t :: rest)
    else
      match parseAttribute t rest with
      | none => none
      | some (a, rest2) =>
        match parseAttrs fuel rest2 with
        | none => none
        | some (as, rest3) => some (a :: as, rest3)

/-- Modelled from the spec: the attribute groups — each group tag starts a
new group, the end marker 0x03 stops, anything else is malformed. Returns
the bytes following the end marker (the embedded document, when present). -/
def parseGroups : Nat → List Nat → Option (List IppGroup × List Nat)
  | _, [] => none
  | 0, t :: rest => if t = 0x03 then some ([], rest) else none
  | fuel + 1, t :: rest =>
    if t = 0x03 then some ([], rest)
    else if isGroupTag t then
      match parseAttrs fuel rest with
      | none => none
      | some (as, rest2) =>
        match parseGroups fuel rest2 with
        | none => none
        | some (gs, rest3) => some ({ tag := t, attrs := as } :: gs, rest3)
    else none

/-- Modelled from the spec: `decode(bytes)` — fail (`MalformedMessage`) on
fewer than 8 header bytes, read version, operation/status code and request
id from the fixed header, then walk the remaining bytes as groups up to the
end marker. -/
def decodeMessage (bs : List Nat) : Option (IppMessage × List Nat) :=
  match bs with
  | v1 :: v0 :: c1 :: c0 :: r3 :: r2 :: r1 :: r0 :: rest =>
    match parseGroups rest.length rest with
    | none => none
    | some (gs, leftover) =>
      some ({ version := v1 * 256 + v0, code := c1 * 256 + c0,
              requestId := ((r3 * 256 + r2) * 256 + r1) * 256 + r0,
              groups := gs }, leftover)
  | _ => none

/-- Well-formed value: the tag class matches the value kind, text fits a
16-bit length with byte-range content, integers fit in 32 signed bits. -/
def wfValue (tag : Nat) : IppValue → Bool
  | .text s => isTextTag tag && decide (s.length < 65536)
      && s.all (fun b => decide (b < 256))
  | .int32 n => isIntTag tag && decide (-2147483648 ≤ n)
      && decide (n < 2147483648)
  | .bool _ => tag == 0x22

/-- Well-formed attribute: a non-delimiter tag, a name fitting a 16-bit
length with byte-range content, and a well-formed value. -/
def wfAttr (a : IppAttribute) : Bool :=
  !(isDelimiterTag a.tag) && decide (a.name.length < 65536)
    && a.name.all (fun b => decide (b < 256)) && wfValue a.tag a.value

/-- Well-formed group: a group tag, well-formed attributes, and the
multi-value rule that the group's first attribute record carries a name
(an empty-named record is only ever a continuation of a preceding one). -/
def wfGroup (g : IppGroup) : Bool :=
  isGroupTag g.tag && g.attrs.all wfAttr &&
  (match g.attrs with
   | [] => true
   | a :: _ => decide (a.name ≠ []))

/-- Canonical group order: strictly ascending group tags
(operation 0x01, job 0x02, printer 0x04, unsupported 0x05). -/
def tagsStrictAscending : List Nat → Bool
  | [] => true
  | [_] => true
  | a :: b :: rest => decide (a < b) && tagsStrictAscending (b :: rest)

/-- Well-formed message: header fields in range, well-formed groups in
canonical order. -/
def wfMessage (m : IppMessage) : Bool :=
  decide (m.version < 65536) && decide (m.code < 65536)
    && decide (m.requestId < 4294967296)
    && m.groups.all wfGroup
    && tagsStrictAscending (m.groups.map (fun g => g.tag))

/-- The fuel measure needed to parse a group list: one step per group plus
one per attribute record. -/
def measureGroups (gs : List IppGroup) : Nat :=
  (gs.map (fun g => 1 + g.attrs.length)).sum

/-- A concrete well-formed two-group message exercising text, integer and
boolean values and the first-named/then-empty-name multi-value structure. -/
def ippMessageEx : IppMessage :=
  { version := 0x0200, code := 0x000b, requestId := 7,
    groups := [
      { tag := 1, attrs := [
          { tag := 0x47, name := strBytes "attributes-charset",
            value := .text (strBytes "utf-8") },
          { tag := 0x44, name := strBytes "x", value := .text (strBytes "a") },
          { tag := 0x44, name := [], value := .text (strBytes "b") } ] },
      { tag := 2, attrs := [
          { tag := 0x21, name := strBytes "job-id", value := .int32 (-5) },
          { tag := 0x22, name := strBytes "ok", value := .bool true } ] } ] }

/-! ## Theorems -/

/-- Helper: `dedupAux` keeps the last element of the original run. -/
theorem dedupAux_getLastD (prev : Int) (ys : List Int) :
    (dedupAux prev ys).getLastD prev = ys.getLastD prev := by
  induction ys generalizing prev with
  | nil => rfl
  | cons y ys ih =>
    rw [List.getLastD_cons]
    by_cases h : y = prev
    · subst h
      have hd : dedupAux y (y :: ys) = dedupAux y ys := by simp [dedupAux]
      rw [hd, ih y]
    · have hd : dedupAux prev (y :: ys) = y :: dedupAux y ys := by simp [dedupAux, h]
      rw [hd, List.getLastD_cons, ih y]

/-- Helper: `dedupAux prev ys = []` iff every element of `ys` equals `prev`. -/
theorem dedupAux_eq_nil_iff (prev : Int) (ys : List Int) :
    dedupAux prev ys = [] ↔ ∀ y ∈ ys, y = prev := by
  induction ys generalizing prev with
  | nil => simp [dedupAux]
  | cons y ys ih =>
    by_cases h : y = prev
    · subst h
      simp only [dedupAux, ne_eq, not_true_eq_false, ite_false, if_false]
      rw [ih y]
      constructor
      · intro hall z hz
        rcases List.mem_cons.mp hz with h1 | h2
        · exact h1
        · exact hall z h2
      · intro hall z hz
        exact hall z (List.mem_cons_of_mem _ hz)
    · simp [dedupAux, h]

/-- Helper: a sorted list's head is ≤ every member. -/
theorem sorted_headD_le {l : List Int} (hs : l.Sorted (· ≤ ·)) {x : Int}
    (hx : x ∈ l) (d : Int) : l.headD d ≤ x := by
  cases l with
  | nil => cases hx
  | cons a t =>
    rcases List.mem_cons.mp hx with h | h
    · simp [h]
    · exact (List.sorted_cons.mp hs).1 x h

/-- Helper: every member of a sorted list is ≤ its last element. -/
theorem sorted_le_getLastD : ∀ (l : List Int), l.Sorted (· ≤ ·) →
    ∀ x ∈ l, ∀ d : Int, x ≤ l.getLastD d := by
  intro l
  induction l with
  | nil => intro _ x hx; cases hx
  | cons a t ih =>
    intro hs x hx d
    rcases List.sorted_cons.mp hs with ⟨ha, ht⟩
    rw [List.getLastD_cons]
    cases t with
    | nil =>
      rcases List.mem_cons.mp hx with h | h
      · rw [h, List.getLastD_nil]
      · cases h
    | cons b u =>
      rcases List.mem_cons.mp hx with h | h
      · rw [h]
        exact le_trans (ha b (List.mem_cons_self b u))
          (ih ht b (List.mem_cons_self b u) a)
      · exact ih ht x h a

/-- Helper: characterization of `resolutionString` on a non-empty list in terms
of a minimum `m` and maximum `M` of the list. -/
theorem resolutionString_min_max (l : List Int) (m M : Int)
    (hm : m ∈ l) (hmin : ∀ x ∈ l, m ≤ x) (hM : M ∈ l) (hmax : ∀ x ∈ l, x ≤ M) :
    resolutionString l =
      if m = M then "RS" ++ toString m
      else "RS" ++ toString m ++ "-" ++ toString M := by
  have hlne : l ≠ [] := by
    intro h
    subst h
    cases hm
  have hlen : ¬ l.length = 0 := by
    simpa [List.length_eq_zero] using hlne
  have hperm : List.Perm (sortInts l) l := List.perm_insertionSort _ l
  have hsorted : (sortInts l).Sorted (· ≤ ·) := List.sorted_insertionSort _ l
  have hsne : sortInts l ≠ [] := by
    intro h
    rw [h] at hperm
    exact hlne hperm.symm.eq_nil
  obtain ⟨a, t, hst⟩ := List.exists_cons_of_ne_nil hsne
  have hmems : ∀ x : Int, x ∈ sortInts l ↔ x ∈ l := fun x => hperm.mem_iff
  have ham : a = m := by
    have h1 : m ≤ a := hmin a ((hmems a).mp (hst ▸ List.mem_cons_self a t))
    have h2 : a ≤ m := by
      have h3 := sorted_headD_le hsorted ((hmems m).mpr hm) 0
      rw [hst] at h3
      simpa using h3
    exact le_antisymm h2 h1
  have hlast : (sortInts l).getLastD 0 = M := by
    have h1 : (sortInts l).getLastD 0 ≤ M := by
      apply hmax
      apply (hmems _).mp
      rw [hst, List.getLastD_cons]
      exact List.getLastD_mem_cons t a
    have h2 : M ≤ (sortInts l).getLastD 0 :=
      sorted_le_getLastD _ hsorted M ((hmems M).mpr hM) 0
    exact le_antisymm h1 h2
  unfold resolutionString
  rw [if_neg hlen]
  by_cases hmM : m = M
  · rw [if_pos hmM]
    have hall : ∀ y ∈ t, y = a := by
      intro y hy
      have hyl : y ∈ l := (hmems y).mp (hst ▸ List.mem_cons_of_mem a hy)
      have hy1 := hmin y hyl
      have hy2 := hmax y hyl
      rw [← hmM] at hy2
      rw [ham]
      exact le_antisymm hy2 hy1
    have hded : dedupAux a t = [] := (dedupAux_eq_nil_iff a t).mpr hall
    rw [hst]
    simp only [dedupAdjacent]
    rw [hded]
    simp [ham]
  · rw [if_neg hmM]
    have hded : dedupAux a t ≠ [] := by
      intro h
      have hall := (dedupAux_eq_nil_iff a t).mp h
      have hMs : M ∈ sortInts l := (hmems M).mpr hM
      rw [hst] at hMs
      rcases List.mem_cons.mp hMs with h1 | h1
      · exact hmM (by rw [← ham, h1])
      · exact hmM (by rw [← ham, hall M h1])
    have hlen1 : ¬ (a :: dedupAux a t).length = 1 := by
      simp only [List.length_cons]
      intro h
      exact hded (List.length_eq_zero.mp (by omega))
    have hlastT : t.getLastD a = M := by
      rw [hst, List.getLastD_cons] at hlast
      exact hlast
    rw [hst]
    simp only [dedupAdjacent]
    rw [if_neg hlen1, List.headD_cons, List.getLastD_cons, dedupAux_getLastD,
      hlastT, ham]

/-- Helper: every `resolutionString` value begins with the character 'R'. -/
theorem resolutionString_head (l : List Int) :
    (resolutionString l).data.head? = some 'R' := by
  unfold resolutionString
  dsimp only
  split
  · rfl
  · split
    · rfl
    · rfl

/-- Helper: a string whose first character is not 'R' is never a
`resolutionString` value. -/
theorem ne_resolutionString_of_head (s : String) (h : s.data.head? ≠ some 'R')
    (l : List Int) : ¬ s = resolutionString l := by
  intro he
  apply h
  rw [he]
  exact resolutionString_head l

/-- C6: the resolution token rule. The token of the capability string is the
`resolutionString` of the resolution list: `RS300` for the empty list, the
listed concrete examples, and in general (for a non-empty list with minimum
`m` and maximum `M`) `RS<m>` when all values coincide and `RS<m>-<M>`
otherwise — only the minimum and maximum survive. -/
theorem C6_resolution_token :
    resolutionString [] = "RS300"
    ∧ resolutionString [300, 600, 300] = "RS300-600"
    ∧ resolutionString [600, 300, 1200] = "RS300-1200"
    ∧ resolutionString [600] = "RS600"
    ∧ (∀ (l : List Int) (m M : Int), m ∈ l → (∀ x ∈ l, m ≤ x) → M ∈ l →
        (∀ x ∈ l, x ≤ M) →
        resolutionString l =
          if m = M then "RS" ++ toString m
          else "RS" ++ toString m ++ "-" ++ toString M) :=
  ⟨by decide, by decide, by decide, by decide,
    fun l m M hm h1 hM h2 => resolutionString_min_max l m M hm h1 hM h2⟩

/-- Witness for C6: the general min/max rule applied to the concrete list
`[600, 300, 1200]` yields `RS300-1200`. -/
theorem C6_resolution_token_witness :
    resolutionString [600, 300, 1200] = "RS300-1200" := by
  have h := C6_resolution_token.2.2.2.2 [600, 300, 1200] 300 1200
    (by decide) (by decide) (by decide) (by decide)
  rw [if_neg (by decide)] at h
  exact h.trans (by decide)

/-- C7: capability-string token assembly. `urfParts` of
`NewURFCapabilities c d res` is exactly the ordered token list: color modes
(grayscale `W8` always, `SRGB24` iff color), quality `CP255`, one resolution
token, duplex modes (`DM1` always, `DM3`/`DM4` iff duplex); and the stated
membership facts hold for every flag combination and resolution list. -/
theorem C7_capability_string_tokens (c d : Bool) (res : List Int) :
    urfParts (NewURFCapabilities c d res) =
      ["W8"] ++ (if c then ["SRGB24"] else []) ++ ["CP255"]
        ++ [resolutionString (if res.length = 0 then [300] else res)]
        ++ ["DM1"] ++ (if d then ["DM3", "DM4"] else [])
    ∧ ("W8" ∈ urfParts (NewURFCapabilities c d res)
        ∧ "CP255" ∈ urfParts (NewURFCapabilities c d res)
        ∧ "DM1" ∈ urfParts (NewURFCapabilities c d res))
    ∧ ("SRGB24" ∈ urfParts (NewURFCapabilities c d res) ↔ c = true)
    ∧ ("DM3" ∈ urfParts (NewURFCapabilities c d res) ↔ d = true)
    ∧ ("DM4" ∈ urfParts (NewURFCapabilities c d res) ↔ d = true) := by
  refine ⟨?_, ?_, ?_, ?_, ?_⟩
  · cases c <;> cases d <;> simp [urfParts, NewURFCapabilities]
  · cases c <;> cases d <;> simp [urfParts, NewURFCapabilities]
  · cases c <;> cases d <;>
      simp [urfParts, NewURFCapabilities,
        ne_resolutionString_of_head "SRGB24" (by decide)]
  · cases c <;> cases d <;>
      simp [urfParts, NewURFCapabilities,
        ne_resolutionString_of_head "DM3" (by decide)]
  · cases c <;> cases d <;>
      simp [urfParts, NewURFCapabilities,
        ne_resolutionString_of_head "DM4" (by decide)]

/-- Helper: looking up the key just set returns the new value. -/
theorem txtGet_set_eq (l : List (String × String)) (k v : String) :
    txtGet (txtSet l k v) k = some v := by
  induction l with
  | nil => simp [txtSet, txtGet]
  | cons kv rest ih =>
    obtain ⟨k0, v0⟩ := kv
    by_cases h : k0 = k
    · simp [txtSet, txtGet, h]
    · simp [txtSet, txtGet, h, ih]

/-- Helper: setting one key does not change lookups of a different key. -/
theorem txtGet_set_ne (l : List (String × String)) (k v k' : String)
    (h : ¬ k' = k) : txtGet (txtSet l k v) k' = txtGet l k' := by
  have hk : ¬ k = k' := fun he => h he.symm
  induction l with
  | nil => simp [txtSet, txtGet, hk]
  | cons kv rest ih =>
    obtain ⟨k0, v0⟩ := kv
    by_cases h0 : k0 = k
    · simp [txtSet, txtGet, h0, hk]
    · by_cases h1 : k0 = k'
      · simp [txtSet, txtGet, h0, h1, h]
      · simp [txtSet, txtGet, h0, h1, ih]

/-- Helper: `normalizePaperSizes` of a non-empty media list is non-empty. -/
theorem normalizePaperSizes_length_pos (l : List String) (h : 0 < l.length) :
    0 < (normalizePaperSizes l).length := by
  cases l with
  | nil => simp at h
  | cons m rest => simp [normalizePaperSizes, npsLoop]

/-- Helper: the `media` record of `NewTXTRecords` is exactly the normalized,
comma-joined media list when `MediaSupported` is non-empty, absent otherwise. -/
theorem NewTXTRecords_media (p : Printer) :
    txtGet (NewTXTRecords p) "media" =
      if p.MediaSupported.length > 0 then
        some (String.intercalate "," (normalizePaperSizes p.MediaSupported))
      else none := by
  unfold NewTXTRecords
  dsimp only
  simp [apply_ite (fun l => txtGet l "media"), txtGet_set_eq, txtGet_set_ne]
  by_cases hA : p.MediaSupported.length > 0
  · simp [hA, normalizePaperSizes_length_pos p.MediaSupported hA]
  · simp [hA, txtGet]

/-- C1 counterexample: for the repository's own test printer (non-empty
media list), `NewTXTRecords` emits a `media` record — contradicting the
claim that no `media` key ever appears. -/
theorem C1_counterexample :
    txtGet (NewTXTRecords printerEx) "media" = some "A4,Letter" := by decide

/-- C1 (amended): `NewTXTRecords` omits the `media` record exactly when the
descriptor's media list is empty; when it is non-empty the record is emitted,
holding the comma-joined normalized media sizes. -/
theorem C1_media_emitted (p : Printer) :
    (p.MediaSupported = [] → txtGet (NewTXTRecords p) "media" = none)
    ∧ (p.MediaSupported ≠ [] →
        txtGet (NewTXTRecords p) "media" =
          some (String.intercalate "," (normalizePaperSizes p.MediaSupported))) := by
  constructor
  · intro h
    rw [NewTXTRecords_media, if_neg (by simp [h])]
  · intro h
    rw [NewTXTRecords_media, if_pos (List.length_pos.mpr h)]

/-- Witness for C1: the amended rule evaluated at the concrete test printer. -/
theorem C1_media_emitted_witness :
    printerEx.MediaSupported ≠ [] ∧
      txtGet (NewTXTRecords printerEx) "media" =
        some (String.intercalate "," (normalizePaperSizes printerEx.MediaSupported)) :=
  ⟨by decide, (C1_media_emitted printerEx).2 (by decide)⟩

theorem contains_iff_mem_str (l : List String) (a : String) :
    l.contains a = true ↔ a ∈ l := by
  simp [List.contains, List.elem_iff]

theorem addIfAbsent_mem (l : List String) (x f : String) :
    f ∈ addIfAbsent l x ↔ f ∈ l ∨ f = x := by
  unfold addIfAbsent
  split
  · rename_i h
    constructor
    · exact Or.inl
    · rintro (h1 | rfl)
      · exact h1
      · exact (contains_iff_mem_str l f).mp h
  · simp

theorem txtGet_remove_ne (fs : List (String × String)) (key f : String)
    (h : ¬ f = key) : txtGet (txtRemove fs key) f = txtGet fs f := by
  have h2 : ¬ key = f := fun he => h he.symm
  induction fs with
  | nil => rfl
  | cons kv rest ih =>
    obtain ⟨k, v⟩ := kv
    by_cases hk : k = key
    · simp [txtRemove, hk, txtGet, h2, ih]
    · by_cases hf : k = f
      · simp [txtRemove, hk, txtGet, hf, h, ih]
      · simp [txtRemove, hk, txtGet, hf, ih]

theorem cous_fs_self (pfx : String) (port : Int) (st : ManagerState) (p : Printer) :
    txtGet (createOrUpdateService pfx port noFailOracle st p).state.fs
        (ServiceFileName pfx p.Name)
      = some (GenerateServiceFile p.Name port (NewTXTRecords p)) := by
  unfold createOrUpdateService
  dsimp only
  cases hx : txtGet st.fs (ServiceFileName pfx p.Name) with
  | none => simp [noFailOracle, txtGet_set_eq]
  | some existing =>
    by_cases he : existing = GenerateServiceFile p.Name port (NewTXTRecords p)
    · simp [he, hx]
    · simp [he, hx, noFailOracle, txtGet_set_eq]

theorem cous_fs_other (pfx : String) (port : Int) (st : ManagerState)
    (p : Printer) (g : String) (hg : ¬ g = ServiceFileName pfx p.Name) :
    txtGet (createOrUpdateService pfx port noFailOracle st p).state.fs g
      = txtGet st.fs g := by
  unfold createOrUpdateService
  dsimp only
  cases hx : txtGet st.fs (ServiceFileName pfx p.Name) with
  | none =>
    simp only [noFailOracle]
    exact txtGet_set_ne _ _ _ _ hg
  | some existing =>
    by_cases he : existing = GenerateServiceFile p.Name port (NewTXTRecords p)
    · simp [he]
    · simp only [he, noFailOracle, if_neg, ite_false]
      exact txtGet_set_ne _ _ _ _ hg

theorem cous_managed_cases (pfx : String) (port : Int) (st : ManagerState)
    (p : Printer) :
    (createOrUpdateService pfx port noFailOracle st p).state.managedFiles
        = st.managedFiles
    ∨ (createOrUpdateService pfx port noFailOracle st p).state.managedFiles
        = addIfAbsent st.managedFiles (ServiceFileName pfx p.Name) := by
  unfold createOrUpdateService
  dsimp only
  cases hx : txtGet st.fs (ServiceFileName pfx p.Name) with
  | none => simp [noFailOracle]
  | some existing =>
    by_cases he : existing = GenerateServiceFile p.Name port (NewTXTRecords p)
    · simp [he]
    · simp [he, noFailOracle]

theorem pp_current (pfx : String) (port : Int) (sharedOnly : Bool)
    (excludeList : List String) :
    ∀ (ps : List Printer) (st : ManagerState),
      (processPrinters pfx port sharedOnly excludeList noFailOracle ps st).2.1
        = eligibleFileNames pfx sharedOnly excludeList ps := by
  intro ps
  induction ps with
  | nil => intro st; rfl
  | cons q qs ih =>
    intro st
    by_cases h : eligible sharedOnly excludeList q = true
    · simp [processPrinters, h, eligibleFileNames, List.filter_cons, ih]
    · simp [processPrinters, h, eligibleFileNames, List.filter_cons, ih]

theorem pp_fs_other (pfx : String) (port : Int) (sharedOnly : Bool)
    (excludeList : List String) :
    ∀ (ps : List Printer) (st : ManagerState) (f : String),
      ¬ f ∈ eligibleFileNames pfx sharedOnly excludeList ps →
      txtGet (processPrinters pfx port sharedOnly excludeList noFailOracle ps st).1.fs f
        = txtGet st.fs f := by
  intro ps
  induction ps with
  | nil => intro st f _; rfl
  | cons q qs ih =>
    intro st f hf
    by_cases h : eligible sharedOnly excludeList q = true
    · have hnames : eligibleFileNames pfx sharedOnly excludeList (q :: qs)
          = ServiceFileName pfx q.Name
            :: eligibleFileNames pfx sharedOnly excludeList qs := by
        simp [eligibleFileNames, List.filter_cons, h]
      rw [hnames] at hf
      simp only [List.mem_cons, not_or] at hf
      simp only [processPrinters, h, if_true, ite_true]
      rw [ih _ f hf.2]
      exact cous_fs_other pfx port st q f hf.1
    · have hnames : eligibleFileNames pfx sharedOnly excludeList (q :: qs)
          = eligibleFileNames pfx sharedOnly excludeList qs := by
        simp [eligibleFileNames, List.filter_cons, h]
      rw [hnames] at hf
      simp only [processPrinters, h, if_false, ite_false]
      exact ih _ f hf

theorem pp_fs_self (pfx : String) (port : Int) (sharedOnly : Bool)
    (excludeList : List String) :
    ∀ (ps : List Printer) (st : ManagerState),
      (eligibleFileNames pfx sharedOnly excludeList ps).Nodup →
      ∀ p ∈ ps, eligible sharedOnly excludeList p = true →
      txtGet (processPrinters pfx port sharedOnly excludeList noFailOracle ps st).1.fs
          (ServiceFileName pfx p.Name)
        = some (GenerateServiceFile p.Name port (NewTXTRecords p)) := by
  intro ps
  induction ps with
  | nil => intro st _ p hp; cases hp
  | cons q qs ih =>
    intro st hnodup p hp helig
    by_cases h : eligible sharedOnly excludeList q = true
    · have hnames : eligibleFileNames pfx sharedOnly excludeList (q :: qs)
          = ServiceFileName pfx q.Name
            :: eligibleFileNames pfx sharedOnly excludeList qs := by
        simp [eligibleFileNames, List.filter_cons, h]
      rw [hnames] at hnodup
      have hnotin := (List.nodup_cons.mp hnodup).1
      have hnodup2 := (List.nodup_cons.mp hnodup).2
      simp only [processPrinters, h, ite_true]
      rcases List.mem_cons.mp hp with hpq | hpq
      · subst hpq
        rw [pp_fs_other pfx port sharedOnly excludeList qs _ _ hnotin]
        exact cous_fs_self pfx port st p
      · exact ih _ hnodup2 p hpq helig
    · have hnames : eligibleFileNames pfx sharedOnly excludeList (q :: qs)
          = eligibleFileNames pfx sharedOnly excludeList qs := by
        simp [eligibleFileNames, List.filter_cons, h]
      rw [hnames] at hnodup
      simp only [processPrinters, h, ite_false]
      rcases List.mem_cons.mp hp with hpq | hpq
      · subst hpq
        exact absurd helig h
      · exact ih _ hnodup p hpq helig

theorem pp_skip (pfx : String) (port : Int) (sharedOnly : Bool)
    (excludeList : List String) :
    ∀ (ps : List Printer) (st : ManagerState),
      (∀ p ∈ ps, eligible sharedOnly excludeList p = true →
        txtGet st.fs (ServiceFileName pfx p.Name)
          = some (GenerateServiceFile p.Name port (NewTXTRecords p))) →
      processPrinters pfx port sharedOnly excludeList noFailOracle ps st
        = (st, eligibleFileNames pfx sharedOnly excludeList ps, 0) := by
  intro ps
  induction ps with
  | nil => intro st _; rfl
  | cons q qs ih =>
    intro st hok
    by_cases h : eligible sharedOnly excludeList q = true
    · have hq := hok q (List.mem_cons_self q qs) h
      have hcous : createOrUpdateService pfx port noFailOracle st q
          = { state := st, wrote := false, failed := false } := by
        unfold createOrUpdateService
        dsimp only
        rw [hq]
        simp
      have hrest := ih st (fun p hp he => hok p (List.mem_cons_of_mem q hp) he)
      simp [processPrinters, h, hcous, hrest, eligibleFileNames,
        List.filter_cons]
    · have hrest := ih st (fun p hp he => hok p (List.mem_cons_of_mem q hp) he)
      simp [processPrinters, h, hrest, eligibleFileNames, List.filter_cons]

theorem ro_managed (cur : List String) :
    ∀ (ms : List String) (fs : List (String × String)),
      (removeOrphans noFailOracle cur ms fs).1
        = ms.filter (fun f => cur.contains f) := by
  intro ms
  induction ms with
  | nil => intro fs; rfl
  | cons f ms ih =>
    intro fs
    have hrf : noFailOracle.removeFails f = false := rfl
    by_cases h : f ∈ cur
    · simp [removeOrphans, h, List.filter_cons, ih, hrf]
    · simp [removeOrphans, h, List.filter_cons, ih, hrf]

theorem ro_fs_contains (cur : List String) :
    ∀ (ms : List String) (fs : List (String × String)) (f : String),
      cur.contains f = true →
      txtGet (removeOrphans noFailOracle cur ms fs).2.1 f = txtGet fs f := by
  intro ms
  induction ms with
  | nil => intro fs f _; rfl
  | cons f0 ms ih =>
    intro fs f hf
    by_cases h : cur.contains f0 = true
    · simp only [removeOrphans, h, ite_true]
      exact ih fs f hf
    · have hne : ¬ f = f0 := by
        intro he
        rw [he] at hf
        exact h hf
      have hrf : noFailOracle.removeFails f0 = false := rfl
      simp only [removeOrphans, h, ite_false, hrf, Bool.false_eq_true, if_false]
      rw [ih _ f hf]
      exact txtGet_remove_ne fs f0 f hne

theorem ro_all_current (cur : List String) :
    ∀ (ms : List String) (fs : List (String × String)),
      (∀ f ∈ ms, cur.contains f = true) →
      removeOrphans noFailOracle cur ms fs = (ms, fs, 0) := by
  intro ms
  induction ms with
  | nil => intro fs _; rfl
  | cons f ms ih =>
    intro fs hall
    have hf : f ∈ cur :=
      (contains_iff_mem_str cur f).mp (hall f (List.mem_cons_self f ms))
    have hrest := ih fs (fun g hg => hall g (List.mem_cons_of_mem f hg))
    simp [removeOrphans, hf, hrest]

theorem C5_second_pass_clean (pfx : String) (port : Int)
    (printers : List Printer) (sharedOnly : Bool) (excludeList : List String)
    (st : ManagerState)
    (hnodup : (eligibleFileNames pfx sharedOnly excludeList printers).Nodup) :
    (UpdatePrinters pfx port noFailOracle printers sharedOnly excludeList
        (UpdatePrinters pfx port noFailOracle printers sharedOnly excludeList
          st).state).writes = 0
    ∧ (UpdatePrinters pfx port noFailOracle printers sharedOnly excludeList
        (UpdatePrinters pfx port noFailOracle printers sharedOnly excludeList
          st).state).deletions = 0 := by
  set names := eligibleFileNames pfx sharedOnly excludeList printers with hnames
  set r1 := UpdatePrinters pfx port noFailOracle printers sharedOnly excludeList st
    with hr1
  -- pass-1 facts
  have hcur : (processPrinters pfx port sharedOnly excludeList noFailOracle
      printers st).2.1 = names := pp_current pfx port sharedOnly excludeList printers st
  -- the fs of r1.state holds the generated content of every eligible printer
  have hfs1 : ∀ p ∈ printers, eligible sharedOnly excludeList p = true →
      txtGet r1.state.fs (ServiceFileName pfx p.Name)
        = some (GenerateServiceFile p.Name port (NewTXTRecords p)) := by
    intro p hp he
    have hmem : ServiceFileName pfx p.Name ∈ names := by
      rw [hnames]
      exact List.mem_map.mpr ⟨p, List.mem_filter.mpr ⟨hp, he⟩, rfl⟩
    have hcont : names.contains (ServiceFileName pfx p.Name) = true :=
      (contains_iff_mem_str _ _).mpr hmem
    have h1 : txtGet r1.state.fs (ServiceFileName pfx p.Name)
        = txtGet (processPrinters pfx port sharedOnly excludeList noFailOracle
            printers st).1.fs (ServiceFileName pfx p.Name) := by
      rw [hr1]
      unfold UpdatePrinters
      dsimp only
      rw [hcur]
      exact ro_fs_contains names _ _ _ hcont
    rw [h1]
    exact pp_fs_self pfx port sharedOnly excludeList printers st hnodup p hp he
  -- every managed file of r1.state is in the current-pass set
  have hman1 : ∀ f ∈ r1.state.managedFiles, names.contains f = true := by
    intro f hf
    rw [hr1] at hf
    unfold UpdatePrinters at hf
    dsimp only at hf
    rw [hcur, ro_managed names] at hf
    exact (List.mem_filter.mp hf).2
  -- pass 2 performs no writes and no deletions
  have hpass2 := pp_skip pfx port sharedOnly excludeList printers r1.state hfs1
  constructor
  · show (UpdatePrinters pfx port noFailOracle printers sharedOnly excludeList
      r1.state).writes = 0
    unfold UpdatePrinters
    dsimp only
    rw [hpass2]
  · show (UpdatePrinters pfx port noFailOracle printers sharedOnly excludeList
      r1.state).deletions = 0
    unfold UpdatePrinters
    dsimp only
    rw [hpass2]
    dsimp only
    rw [ro_all_current names r1.state.managedFiles r1.state.fs hman1]

/-- C5 counterexample: two distinct shared printers `pr.x` and `pr_x`
collide on the sanitized service filename, so the second reconciliation pass
of the same printer list performs two writes, not zero. -/
theorem C5_counterexample :
    (UpdatePrinters "airprint-" 631 noFailOracle [printerColA, printerColB]
        true []
        (UpdatePrinters "airprint-" 631 noFailOracle [printerColA, printerColB]
          true [] emptyState).state).writes = 2 := by decide

/-- Witness for C5: a single shared printer (collision-free by construction)
gives a second pass with zero writes and zero deletions. -/
theorem C5_second_pass_clean_witness :
    (UpdatePrinters "airprint-" 631 noFailOracle [printerColA] true []
        (UpdatePrinters "airprint-" 631 noFailOracle [printerColA] true []
          emptyState).state).writes = 0
    ∧ (UpdatePrinters "airprint-" 631 noFailOracle [printerColA] true []
        (UpdatePrinters "airprint-" 631 noFailOracle [printerColA] true []
          emptyState).state).deletions = 0 :=
  C5_second_pass_clean "airprint-" 631 [printerColA] true [] emptyState
    (by decide)

/-- C9: `UpdatePrinters` returns no error for every printer list, filter
configuration, initial state, and filesystem-failure oracle: all per-printer
write failures and orphan-removal failures are only logged and skipped. -/
theorem C9_update_printers_error_nil (pfx : String) (port : Int)
    (oracle : FSOracle) (printers : List Printer) (sharedOnly : Bool)
    (excludeList : List String) (st : ManagerState) :
    (UpdatePrinters pfx port oracle printers sharedOnly excludeList st).error
      = none := rfl

theorem C2_counterexample :
    handleIPP serverEx (Except.ok 1) "POST" [] = .transportError 400 "Bad request"
    ∧ ippBytes (handleIPP serverEx (Except.ok 1) "POST" []) = none := by
  constructor
  · rfl
  · rfl

theorem C2_short_body_transport_error (s : Server) (cups : Except Unit Int)
    (body : List Nat) (h : body.length < 8) :
    handleIPP s cups "POST" body = .transportError 400 "Bad request" := by
  unfold handleIPP
  rw [if_neg (by simp), if_pos h]

theorem C2_short_body_transport_error_witness :
    handleIPP serverEx (Except.ok 1) "POST" [1, 1, 0, 2, 9, 9, 9]
      = .transportError 400 "Bad request" :=
  C2_short_body_transport_error serverEx (Except.ok 1) [1, 1, 0, 2, 9, 9, 9]
    (by decide)

set_option maxRecDepth 100000 in
theorem C3_get_printer_attributes_fixed :
    (∀ (addr name mm1 mm2 loc1 loc2 : String) (c1 c2 d1 d2 : Bool)
        (r1 r2 : List Int) (rid : Nat),
      handleGetPrinterAttributes
        (NewServer addr { Name := name, MakeModel := mm1, Location := loc1,
                          Color := c1, Duplex := d1, Resolutions := r1 }) rid
      = handleGetPrinterAttributes
        (NewServer addr { Name := name, MakeModel := mm2, Location := loc2,
                          Color := c2, Duplex := d2, Resolutions := r2 }) rid)
    ∧ seqContains (strBytes "Zebra ZPL Label Printer")
        (handleGetPrinterAttributes serverEx 1) = true
    ∧ seqContains (strBytes "Test Printer Model")
        (handleGetPrinterAttributes serverEx 1) = false := by
  refine ⟨?_, ?_, ?_⟩
  · intro addr name mm1 mm2 loc1 loc2 c1 c2 d1 d2 r1 r2 rid
    rfl
  · decide
  · decide

theorem u32bytes_recompose (b4 b5 b6 b7 : Nat) (h4 : b4 < 256) (h5 : b5 < 256)
    (h6 : b6 < 256) (h7 : b7 < 256) :
    u32bytes (((b4 * 256 + b5) * 256 + b6) * 256 + b7) = [b4, b5, b6, b7] := by
  simp only [u32bytes, List.cons.injEq, and_true]
  refine ⟨?_, ?_, ?_, ?_⟩ <;> omega

theorem respHeader_slice (st rid : Nat) (tail : List Nat) :
    ((respHeader st rid ++ tail).drop 4).take 4 = u32bytes rid := by
  simp [respHeader, u16bytes, u32bytes]

theorem slice_buildErrorResponse (rid st : Nat) :
    ((buildErrorResponse rid st).drop 4).take 4 = u32bytes rid := by
  unfold buildErrorResponse
  simp only [List.append_assoc]
  exact respHeader_slice _ _ _

theorem slice_handleGetPrinterAttributes (s : Server) (rid : Nat) :
    ((handleGetPrinterAttributes s rid).drop 4).take 4 = u32bytes rid := by
  unfold handleGetPrinterAttributes
  simp only [List.append_assoc]
  exact respHeader_slice _ _ _

theorem slice_handlePrintJob (s : Server) (cups : Except Unit Int) (rid : Nat)
    (body : List Nat) :
    ((handlePrintJob s cups rid body).drop 4).take 4 = u32bytes rid := by
  unfold handlePrintJob
  split
  · exact slice_buildErrorResponse _ _
  · cases cups with
    | error e => exact slice_buildErrorResponse _ _
    | ok jobID =>
      simp only [List.append_assoc]
      exact respHeader_slice _ _ _

theorem slice_handleValidateJob (rid : Nat) :
    ((handleValidateJob rid).drop 4).take 4 = u32bytes rid := by
  unfold handleValidateJob
  simp only [List.append_assoc]
  exact respHeader_slice _ _ _

theorem slice_handleGetJobs (rid : Nat) :
    ((handleGetJobs rid).drop 4).take 4 = u32bytes rid := by
  unfold handleGetJobs
  simp only [List.append_assoc]
  exact respHeader_slice _ _ _

theorem slice_handleGetJobAttributes (rid : Nat) :
    ((handleGetJobAttributes rid).drop 4).take 4 = u32bytes rid := by
  unfold handleGetJobAttributes
  simp only [List.append_assoc]
  exact respHeader_slice _ _ _

theorem slice_handleCancelJob (rid : Nat) :
    ((handleCancelJob rid).drop 4).take 4 = u32bytes rid := by
  unfold handleCancelJob
  simp only [List.append_assoc]
  exact respHeader_slice _ _ _

theorem C8_request_id_echo (s : Server) (cups : Except Unit Int)
    (body : List Nat) (hlen : 8 ≤ body.length)
    (hbytes : ∀ b ∈ body, b < 256) :
    (ippBytes (handleIPP s cups "POST" body)).isSome = true
    ∧ ((((ippBytes (handleIPP s cups "POST" body)).getD []).drop 4).take 4)
        = (body.drop 4).take 4 := by
  match body, hlen with
  | b0 :: b1 :: b2 :: b3 :: b4 :: b5 :: b6 :: b7 :: rest, _ =>
    have h4 : b4 < 256 := hbytes b4 (by simp)
    have h5 : b5 < 256 := hbytes b5 (by simp)
    have h6 : b6 < 256 := hbytes b6 (by simp)
    have h7 : b7 < 256 := hbytes b7 (by simp)
    have hres : handleIPP s cups "POST" (b0 :: b1 :: b2 :: b3 :: b4 :: b5 :: b6 :: b7 :: rest)
        = .ipp (let operation := b2 * 256 + b3
            let requestID := ((b4 * 256 + b5) * 256 + b6) * 256 + b7
            if operation = 0x000b then handleGetPrinterAttributes s requestID
            else if operation = 0x0002 then
              handlePrintJob s cups requestID (b0 :: b1 :: b2 :: b3 :: b4 :: b5 :: b6 :: b7 :: rest)
            else if operation = 0x0004 then handleValidateJob requestID
            else if operation = 0x000a then handleGetJobs requestID
            else if operation = 0x0009 then handleGetJobAttributes requestID
            else if operation = 0x0008 then handleCancelJob requestID
            else buildErrorResponse requestID 0x0400) := by
      unfold handleIPP
      rw [if_neg (by simp)]
      rw [if_neg (by simp)]
      rfl
    rw [hres]
    dsimp only [ippBytes, Option.isSome, Option.getD]
    refine ⟨rfl, ?_⟩
    have hslice : ((b0 :: b1 :: b2 :: b3 :: b4 :: b5 :: b6 :: b7 :: rest).drop 4).take 4
        = [b4, b5, b6, b7] := by simp
    rw [hslice]
    rw [← u32bytes_recompose b4 b5 b6 b7 h4 h5 h6 h7]
    split
    · exact slice_handleGetPrinterAttributes _ _
    · split
      · exact slice_handlePrintJob _ _ _ _
      · split
        · exact slice_handleValidateJob _
        · split
          · exact slice_handleGetJobs _
          · split
            · exact slice_handleGetJobAttributes _
            · split
              · exact slice_handleCancelJob _
              · exact slice_buildErrorResponse _ _

theorem C8_request_id_echo_witness :
    (ippBytes (handleIPP serverEx (Except.ok 1) "POST"
        [2, 0, 0, 0x0b, 9, 8, 7, 6])).isSome = true
    ∧ ((((ippBytes (handleIPP serverEx (Except.ok 1) "POST"
        [2, 0, 0, 0x0b, 9, 8, 7, 6])).getD []).drop 4).take 4)
        = (([2, 0, 0, 0x0b, 9, 8, 7, 6] : List Nat).drop 4).take 4 :=
  C8_request_id_echo serverEx (Except.ok 1) [2, 0, 0, 0x0b, 9, 8, 7, 6]
    (by decide) (by decide)

theorem findDocLoop_eq_neg_one :
    ∀ (l : List Nat) (i : Nat),
      findDocLoop i l = -1 ↔ ∀ j : Nat, l[j]? ≠ some 3 := by
  intro l
  induction l with
  | nil =>
    intro i
    simp [findDocLoop]
  | cons b rest ih =>
    intro i
    by_cases hb : b = 3
    · subst hb
      simp only [findDocLoop, reduceIte]
      constructor
      · intro h
        exfalso
        omega
      · intro hall
        exact absurd List.getElem?_cons_zero (hall 0)
    · simp only [findDocLoop, if_neg hb]
      rw [ih (i + 1)]
      constructor
      · intro hall j
        cases j with
        | zero => simpa [List.getElem?_cons_zero] using hb
        | succ j' => simpa [List.getElem?_cons_succ] using hall j'
      · intro hall j
        simpa [List.getElem?_cons_succ] using hall (j + 1)

theorem findDocLoop_eq_nat :
    ∀ (l : List Nat) (i : Nat) (d : Nat),
      findDocLoop i l = (d : Int) →
      ∃ j : Nat, d = i + j + 1 ∧ l[j]? = some 3
        ∧ ∀ j' : Nat, j' < j → l[j']? ≠ some 3 := by
  intro l
  induction l with
  | nil =>
    intro i d h
    exfalso
    simp only [findDocLoop] at h
    omega
  | cons b rest ih =>
    intro i d hd
    by_cases hb : b = 3
    · subst hb
      simp only [findDocLoop, reduceIte] at hd
      refine ⟨0, by omega, List.getElem?_cons_zero, ?_⟩
      intro j' hj'
      omega
    · simp only [findDocLoop, if_neg hb] at hd
      obtain ⟨j, hdj, hget, hmin⟩ := ih (i + 1) d hd
      refine ⟨j + 1, by omega, by simpa [List.getElem?_cons_succ] using hget, ?_⟩
      intro j' hj'
      cases j' with
      | zero => simpa [List.getElem?_cons_zero] using hb
      | succ j'' => simpa [List.getElem?_cons_succ] using hmin j'' (by omega)

/-- C10: `findDocumentStart` returns -1 exactly when no 0x03 byte occurs at
any index ≥ 8; otherwise it returns `i + 1` for the smallest such index `i`,
so the returned offset `d` satisfies `9 ≤ d ≤ len(body)`, `body[d-1] = 0x03`,
and no earlier index ≥ 8 holds a 0x03 byte (a 0x03 anywhere inside an
attribute's bytes is taken, not only the true end marker). -/
theorem C10_find_document_start (body : List Nat) :
    (findDocumentStart body = -1 ↔ ∀ i : Nat, 8 ≤ i → body[i]? ≠ some 3)
    ∧ (∀ d : Nat, findDocumentStart body = (d : Int) →
        9 ≤ d ∧ d ≤ body.length ∧ body[d - 1]? = some 3
        ∧ ∀ j : Nat, 8 ≤ j → j < d - 1 → body[j]? ≠ some 3) := by
  constructor
  · unfold findDocumentStart
    rw [findDocLoop_eq_neg_one (body.drop 8) 8]
    constructor
    · intro hall i hi
      have he : 8 + (i - 8) = i := by omega
      rw [← he]
      rw [← List.getElem?_drop]
      exact hall (i - 8)
    · intro hall j
      rw [List.getElem?_drop]
      exact hall (8 + j) (by omega)
  · intro d hd
    unfold findDocumentStart at hd
    obtain ⟨j, hdj, hget, hmin⟩ := findDocLoop_eq_nat (body.drop 8) 8 d hd
    rw [List.getElem?_drop] at hget
    have hjlen : 8 + j < body.length := by
      rcases List.getElem?_eq_some_iff.mp hget with ⟨hh, _⟩
      exact hh
    refine ⟨by omega, by omega, ?_, ?_⟩
    · have he : d - 1 = 8 + j := by omega
      rw [he]
      exact hget
    · intro i hi8 hid
      have he : 8 + (i - 8) = i := by omega
      rw [← he, ← List.getElem?_drop]
      exact hmin (i - 8) (by omega)

/-- Witness for C10: on a body whose byte at index 9 is the first 0x03 at
index ≥ 8, `findDocumentStart` returns 10, within the stated bounds. -/
theorem C10_find_document_start_witness :
    findDocumentStart [0, 0, 0, 0, 0, 0, 0, 0, 1, 3, 5] = ((10 : Nat) : Int)
    ∧ 9 ≤ 10 ∧ 10 ≤ ([0, 0, 0, 0, 0, 0, 0, 0, 1, 3, 5] : List Nat).length
    ∧ ([0, 0, 0, 0, 0, 0, 0, 0, 1, 3, 5] : List Nat)[10 - 1]? = some 3 := by
  have h0 : findDocumentStart [0, 0, 0, 0, 0, 0, 0, 0, 1, 3, 5]
      = ((10 : Nat) : Int) := by decide
  have h := (C10_find_document_start [0, 0, 0, 0, 0, 0, 0, 0, 1, 3, 5]).2 10 h0
  exact ⟨h0, h.1, h.2.1, h.2.2.1⟩

theorem readU16_u16bytes (n : Nat) (h : n < 65536) (r : List Nat) :
    readU16 (u16bytes n ++ r) = some (n, r) := by
  simp only [u16bytes, List.cons_append, List.nil_append, readU16,
    Option.some.injEq, Prod.mk.injEq, and_true]
  omega

theorem readBytes_exact (l r : List Nat) :
    readBytes l.length (l ++ r) = some (l, r) := by
  simp [readBytes, List.take_left, List.drop_left]

theorem decodeInt32_mod (n : Int) (h1 : -2147483648 ≤ n) (h2 : n < 2147483648) :
    decodeInt32 (n % 4294967296).toNat = n := by
  unfold decodeInt32
  split <;> omega

theorem u32_recompose_of_lt (v : Nat) (h : v < 4294967296) :
    ((v / 16777216 % 256 * 256 + v / 65536 % 256) * 256 + v / 256 % 256) * 256
      + v % 256 = v := by
  omega

theorem isTextTag_cases (t : Nat) (h : isTextTag t = true) :
    isIntTag t = false ∧ (t == 0x22) = false := by
  simp only [isTextTag, Bool.or_eq_true, beq_iff_eq] at h
  constructor
  · simp only [isIntTag, Bool.or_eq_false_iff, beq_eq_false_iff_ne, ne_eq]
    omega
  · simp only [beq_eq_false_iff_ne, ne_eq]
    omega

theorem parseValue_encodeValue (tag : Nat) (v : IppValue) (r : List Nat)
    (h : wfValue tag v = true) :
    parseValue tag (encodeValue v ++ r) = some (v, r) := by
  cases v with
  | text s =>
    simp only [wfValue, Bool.and_eq_true, decide_eq_true_eq] at h
    obtain ⟨⟨htag, hlen⟩, _⟩ := h
    obtain ⟨hint, hbool⟩ := isTextTag_cases tag htag
    unfold parseValue
    rw [show encodeValue (IppValue.text s) ++ r
        = u16bytes s.length ++ (s ++ r) by simp [encodeValue]]
    rw [readU16_u16bytes s.length hlen (s ++ r)]
    rw [hint, hbool, htag]
    simp only [Bool.false_eq_true, if_false, ite_false, ite_true]
    rw [readBytes_exact s r]
  | int32 n =>
    simp only [wfValue, Bool.and_eq_true, decide_eq_true_eq] at h
    obtain ⟨⟨hint, h1⟩, h2⟩ := h
    have hvlt : (n % 4294967296).toNat < 4294967296 := by omega
    unfold parseValue
    rw [show encodeValue (IppValue.int32 n) ++ r
        = u16bytes 4 ++ (u32bytes (n % 4294967296).toNat ++ r) by
      simp [encodeValue]]
    rw [readU16_u16bytes 4 (by omega) _]
    rw [hint]
    simp only [u32bytes, List.cons_append, ite_true, if_pos rfl]
    rw [u32_recompose_of_lt _ hvlt, decodeInt32_mod n h1 h2]
    simp
  | bool b =>
    simp only [wfValue, beq_iff_eq] at h
    subst h
    unfold parseValue
    rw [show encodeValue (IppValue.bool b) ++ r
        = u16bytes 1 ++ ((if b then 1 else 0) :: r) by simp [encodeValue]]
    rw [readU16_u16bytes 1 (by omega) _]
    cases b <;> simp [isIntTag]

theorem parseAttribute_encode (a : IppAttribute) (r : List Nat)
    (h : wfAttr a = true) :
    parseAttribute a.tag
        (u16bytes a.name.length ++ a.name ++ encodeValue a.value ++ r)
      = some (a, r) := by
  simp only [wfAttr, Bool.and_eq_true, decide_eq_true_eq] at h
  obtain ⟨⟨⟨_, hnlen⟩, _⟩, hval⟩ := h
  unfold parseAttribute
  rw [show u16bytes a.name.length ++ a.name ++ encodeValue a.value ++ r
      = u16bytes a.name.length ++ (a.name ++ (encodeValue a.value ++ r)) by
    simp [List.append_assoc]]
  simp only [readU16_u16bytes a.name.length hnlen, readBytes_exact a.name,
    parseValue_encodeValue a.tag a.value r hval]

theorem parseAttrs_encode :
    ∀ (attrs : List IppAttribute) (fuel : Nat) (t : Nat) (r : List Nat),
      attrs.length ≤ fuel → attrs.all wfAttr = true → isDelimiterTag t = true →
      parseAttrs fuel ((attrs.map encodeAttribute).flatten ++ t :: r)
        = some (attrs, t :: r) := by
  intro attrs
  induction attrs with
  | nil =>
    intro fuel t r _ _ hdel
    cases fuel with
    | zero => simp [parseAttrs, hdel]
    | succ fuel => simp [parseAttrs, hdel]
  | cons a as ih =>
    intro fuel t r hfuel hwf hdel
    simp only [List.all_cons, Bool.and_eq_true] at hwf
    obtain ⟨hwa, hwas⟩ := hwf
    have hndel : isDelimiterTag a.tag = false := by
      have := hwa
      simp only [wfAttr, Bool.and_eq_true, Bool.not_eq_true'] at this
      exact this.1.1.1
    cases fuel with
    | zero => simp at hfuel
    | succ fuel =>
      have hbytes : ((a :: as).map encodeAttribute).flatten ++ t :: r
          = a.tag :: (u16bytes a.name.length ++ a.name ++ encodeValue a.value
              ++ ((as.map encodeAttribute).flatten ++ t :: r)) := by
        simp [encodeAttribute, List.append_assoc]
      have hfas : as.length ≤ fuel := by
        simp only [List.length_cons] at hfuel
        omega
      rw [hbytes]
      simp only [parseAttrs, hndel, Bool.false_eq_true, if_false, ite_false]
      simp only [parseAttribute_encode a
          ((as.map encodeAttribute).flatten ++ t :: r) hwa,
        ih fuel t r hfas hwas hdel]

theorem encodeAttribute_length_pos (a : IppAttribute) :
    1 ≤ (encodeAttribute a).length := by
  simp [encodeAttribute]

theorem attrs_length_le_flatten (attrs : List IppAttribute) :
    attrs.length ≤ ((attrs.map encodeAttribute).flatten).length := by
  induction attrs with
  | nil => simp
  | cons a as ih =>
    simp only [List.map_cons, List.flatten_cons, List.length_append,
      List.length_cons]
    have := encodeAttribute_length_pos a
    omega

theorem measure_le_flatten (gs : List IppGroup) :
    measureGroups gs ≤ ((gs.map encodeGroup).flatten).length := by
  induction gs with
  | nil => simp [measureGroups]
  | cons g gs ih =>
    simp only [measureGroups, List.map_cons, List.sum_cons, List.flatten_cons,
      List.length_append] at *
    have h1 := attrs_length_le_flatten g.attrs
    have h2 : (encodeGroup g).length
        = 1 + ((g.attrs.map encodeAttribute).flatten).length := by
      simp [encodeGroup]
      omega
    omega

theorem groups_bytes_shape (gs : List IppGroup) (r : List Nat)
    (hwf : gs.all wfGroup = true) :
    ∃ t' r', (gs.map encodeGroup).flatten ++ 0x03 :: r = t' :: r'
      ∧ isDelimiterTag t' = true := by
  cases gs with
  | nil => exact ⟨3, r, by simp, rfl⟩
  | cons g gs' =>
    simp only [List.all_cons, Bool.and_eq_true] at hwf
    have hg : isGroupTag g.tag = true := by
      have := hwf.1
      simp only [wfGroup, Bool.and_eq_true] at this
      exact this.1.1
    refine ⟨g.tag, (g.attrs.map encodeAttribute).flatten
      ++ ((gs'.map encodeGroup).flatten ++ 0x03 :: r), ?_, ?_⟩
    · simp [encodeGroup, List.append_assoc]
    · simp only [isDelimiterTag, isGroupTag, Bool.or_eq_true, beq_iff_eq]
        at hg ⊢
      omega

theorem parseGroups_encode :
    ∀ (gs : List IppGroup) (fuel : Nat) (r : List Nat),
      measureGroups gs ≤ fuel → gs.all wfGroup = true →
      parseGroups fuel ((gs.map encodeGroup).flatten ++ 0x03 :: r)
        = some (gs, r) := by
  intro gs
  induction gs with
  | nil =>
    intro fuel r _ _
    cases fuel with
    | zero => simp [parseGroups]
    | succ fuel => simp [parseGroups]
  | cons g gs' ih =>
    intro fuel r hfuel hwf
    simp only [List.all_cons, Bool.and_eq_true] at hwf
    obtain ⟨hwg, hwgs⟩ := hwf
    simp only [wfGroup, Bool.and_eq_true] at hwg
    have hgt : isGroupTag g.tag = true := hwg.1.1
    have hattrs : g.attrs.all wfAttr = true := hwg.1.2
    have hne3 : ¬ g.tag = 3 := by
      simp only [isGroupTag, Bool.or_eq_true, beq_iff_eq] at hgt
      omega
    have hmeas : measureGroups (g :: gs')
        = 1 + g.attrs.length + measureGroups gs' := by
      simp [measureGroups]
    cases fuel with
    | zero =>
      rw [hmeas] at hfuel
      omega
    | succ fuel =>
      rw [hmeas] at hfuel
      have hbytes : ((g :: gs').map encodeGroup).flatten ++ 0x03 :: r
          = g.tag :: ((g.attrs.map encodeAttribute).flatten
              ++ ((gs'.map encodeGroup).flatten ++ 0x03 :: r)) := by
        simp [encodeGroup, List.append_assoc]
      rw [hbytes]
      simp only [parseGroups, hne3, if_false, ite_false, hgt, ite_true, if_true]
      obtain ⟨t', r', heq, hdel⟩ := groups_bytes_shape gs' r hwgs
      rw [heq]
      simp only [parseAttrs_encode g.attrs fuel t' r' (by omega) hattrs hdel]
      rw [← heq]
      simp only [ih fuel r (by omega) hwgs]

/-- C4: decode/encode round trip. For every well-formed protocol message
(header fields in range, canonical group order, multi-value continuation
encoding, explicit end marker), decoding the encoded byte string returns
the message unchanged with no leftover bytes. -/
theorem C4_decode_encode_roundtrip (m : IppMessage) (h : wfMessage m = true) :
    decodeMessage (encodeMessage m) = some (m, []) := by
  simp only [wfMessage, Bool.and_eq_true, decide_eq_true_eq] at h
  obtain ⟨⟨⟨⟨hv, hc⟩, hr⟩, hall⟩, _⟩ := h
  have hbytes : encodeMessage m
      = (m.version / 256 % 256) :: (m.version % 256)
        :: (m.code / 256 % 256) :: (m.code % 256)
        :: (m.requestId / 16777216 % 256) :: (m.requestId / 65536 % 256)
        :: (m.requestId / 256 % 256) :: (m.requestId % 256)
        :: ((m.groups.map encodeGroup).flatten ++ 0x03 :: []) := by
    simp [encodeMessage, u16bytes, u32bytes]
  rw [hbytes]
  simp only [decodeMessage]
  have hfuel : measureGroups m.groups
      ≤ ((m.groups.map encodeGroup).flatten ++ 0x03 :: []).length := by
    have := measure_le_flatten m.groups
    simp only [List.length_append, List.length_cons, List.length_nil]
    omega
  rw [parseGroups_encode m.groups _ [] hfuel hall]
  have e1 : m.version / 256 % 256 * 256 + m.version % 256 = m.version := by
    omega
  have e2 : m.code / 256 % 256 * 256 + m.code % 256 = m.code := by
    omega
  have e3 : ((m.requestId / 16777216 % 256 * 256 + m.requestId / 65536 % 256)
      * 256 + m.requestId / 256 % 256) * 256 + m.requestId % 256
      = m.requestId := by
    omega
  rw [e1, e2, e3]

/-- Witness for C4: the concrete two-group message round-trips. -/
theorem C4_decode_encode_roundtrip_witness :
    wfMessage ippMessageEx = true
    ∧ decodeMessage (encodeMessage ippMessageEx) = some (ippMessageEx, []) :=
  ⟨by decide, C4_decode_encode_roundtrip ippMessageEx (by decide)⟩
